import Mathlib

/-!
Verification of nautica-downloader-rs against its specification.

The embedding models `src/lib.rs`:
* `pathComponents`, `fileName` model `std::path::Path::components()` and
  `Path::file_name()` with Unix semantics (separator `/`; `Prefix` components
  exist only on Windows and are never produced, so they are not represented).
* `enclosed_name` models the function of the same name (lib.rs lines 171-186).
* `Entry`, `entryPath`, `extractEntries` model the extraction loop of
  `Downloader::download` (lib.rs lines 132-165).  The charset detector and the
  decoding performed by `chardetng`/`encoding_rs` are external libraries; their
  result for an entry is carried as the oracle fields `decoded`/`hadErrors`.
  The zip crate's `ZipFile::enclosed_name` (version 0.6) applies to
  `file.name()` exactly the algorithm that lib.rs's local `enclosed_name`
  applies, so the container fallback is modelled as `enclosed_name e.name`.
* `Song`, `SongsResp`, `processItems`, `walkLoop`, `download_all` model the
  catalog walk of `Downloader::download_all` (lib.rs lines 79-118), with the
  page fetch (`sess.get(..).send()` + `json_utf8()`) and the per-item
  `Downloader::download` as oracles, and the PickleDb sync store as the set of
  recorded ids (the walk only tests presence via `get::<..>().is_some()` and
  inserts via `set`).
-/

namespace Nautica

/-- The NUL character, as tested by `file_name.contains('\0')` in
`enclosed_name` (lib.rs line 172). -/
def nulChar : Char := Char.ofNat 0

/-- One component of a Unix path, as produced by Rust
`std::path::Path::components()`.  `Component::Prefix` exists only on Windows
and is never produced on Unix, so it has no constructor here. -/
inductive Comp where
  | rootDir
  | curDir
  | parentDir
  | normal (name : List Char)
  deriving DecidableEq

/-- Split a character list at each `/`, keeping empty pieces, so that
`splitP s` lists the separator-delimited pieces of `s` (`splitP [] = [[]]`). -/
def splitP : List Char → List (List Char)
  | [] => [[]]
  | c :: rest =>
    if c = '/' then [] :: splitP rest
    else
      match splitP rest with
      | p :: ps => (c :: p) :: ps
      | [] => [[c]]

/-- Rust `Path::components()` on Unix: a leading `/` yields `RootDir`
(repeated leading separators collapse); a leading `.` (alone or followed by a
separator) of a relative path yields `CurDir`; every other `.` piece and every
empty piece is dropped; `..` pieces are `ParentDir`; the rest are `Normal`. -/
def pathComponents (s : List Char) : List Comp :=
  let hasRoot : Bool :=
    match s with
    | '/' :: _ => true
    | _ => false
  let includeCur : Bool :=
    !hasRoot &&
      (match s with
       | ['.'] => true
       | '.' :: '/' :: _ => true
       | _ => false)
  let parts := (splitP s).filter (fun p => decide (p ≠ [] ∧ p ≠ ['.']))
  (if hasRoot then [Comp.rootDir] else [])
    ++ (if includeCur then [Comp.curDir] else [])
    ++ parts.map (fun p => if p = ['.', '.'] then Comp.parentDir else Comp.normal p)

/-- Rust `Path::file_name()`: the last component when it is a `Normal`
component, and `none` otherwise. -/
def fileName (s : String) : Option String :=
  match (pathComponents s.data).getLast? with
  | some (Comp.normal n) => some (String.mk n)
  | _ => none

/-- The depth scan of `enclosed_name` (lib.rs lines 176-184): `RootDir`
returns `None` (so does `Prefix`, absent on Unix), `ParentDir` does
`depth.checked_sub(1)?`, `Normal` increments, `CurDir` is a no-op. -/
def checkDepth : List Comp → Nat → Bool
  | [], _ => true
  | Comp.rootDir :: _, _ => false
  | Comp.curDir :: rest, d => checkDepth rest d
  | Comp.parentDir :: _, 0 => false
  | Comp.parentDir :: rest, d + 1 => checkDepth rest d
  | Comp.normal _ :: rest, d => checkDepth rest (d + 1)

/-- `enclosed_name` (lib.rs lines 171-186): reject a name containing NUL,
then run the component depth scan; on success return the path unchanged. -/
def enclosed_name (file_name : String) : Option String :=
  if nulChar ∈ file_name.data then none
  else if checkDepth (pathComponents file_name.data) 0 then some file_name else none

/-- One archive entry as seen by the extraction loop.  `name` is
`file.name()` (the zip crate's UTF-8/cp437 interpretation of the raw bytes);
`decoded` and `hadErrors` are the `(cow, _, had_errors)` result of decoding
`file.name_raw()` with the charset guessed by `EncodingDetector`
(lib.rs lines 143-147), carried as an oracle since the detector and decoder
are external libraries. -/
structure Entry where
  name : String
  decoded : String
  hadErrors : Bool
  deriving DecidableEq

/-- `file.name().ends_with('/')` (lib.rs line 135): directory marker. -/
def dirMarker (e : Entry) : Bool := e.name.data.getLast? == some '/'

/-- The sanitized path chosen for an entry (lib.rs lines 148-152): on decode
errors use the container's `file.enclosed_name()` (the zip 0.6 implementation
of the same depth-scan algorithm, applied to `file.name()`), otherwise the
local `enclosed_name` applied to the decoded text. -/
def entryPath (e : Entry) : Option String :=
  if e.hadErrors then enclosed_name e.name else enclosed_name e.decoded

/-- Outcome of the extraction loop over one archive. -/
inductive ExtractOutcome where
  | ok
  | ioError
  | panicked
  deriving DecidableEq

/-- Result of the extraction loop: filenames written (in order) into
`dest/<song-id>/`, and how the loop ended. -/
structure ExtractResult where
  written : List String
  outcome : ExtractOutcome
  deriving DecidableEq

/-- The extraction loop of `Downloader::download` (lib.rs lines 132-165).
Per entry: skip directory markers; compute the sanitized path (skipping the
entry with a warning when it is `None`, lib.rs lines 153-159); take
`filepath.file_name().unwrap()` (line 162), which panics when the accepted
path has no final normal component; create the file and copy the content
(lines 163-164), where `copyOk f` tells whether `File::create`/`io::copy`
for target filename `f` succeed — on failure the `?` operator aborts the
whole extraction. -/
def extractEntries (copyOk : String → Bool) : List Entry → List String → ExtractResult
  | [], acc => ⟨acc, ExtractOutcome.ok⟩
  | e :: rest, acc =>
    if dirMarker e then extractEntries copyOk rest acc
    else
      match entryPath e with
      | none => extractEntries copyOk rest acc
      | some p =>
        match fileName p with
        | none => ⟨acc, ExtractOutcome.panicked⟩
        | some f =>
          if copyOk f then extractEntries copyOk rest (acc ++ [f])
          else ⟨acc, ExtractOutcome.ioError⟩

/-- One catalog item (the `Song` struct, lib.rs lines 33-41); `uploaded_at`
is modelled as a UTC timestamp. -/
structure Song where
  id : String
  user_id : String
  title : String
  artist : String
  uploaded_at : Nat
  deriving DecidableEq

/-- One catalog page (the `SongsResp` struct, lib.rs lines 58-62, with
`Links` inlined). -/
structure SongsResp where
  data : List Song
  next : Option String
  deriving DecidableEq

/-- Observable state of one walk: the sync store contents (ids with a
record), the ids for which the download endpoint was called (in order), and
the page URLs fetched (in order). -/
structure WalkState where
  db : List String
  calls : List String
  fetched : List String
  deriving DecidableEq

/-- How `download_all` ends: `Ok(())`, a fatal error, or fuel exhaustion
(the model's bound on the number of page fetches; the Rust loop follows
`links.next` without a bound). -/
inductive WalkOutcome (ε : Type) where
  | ok
  | fatal (e : ε)
  | outOfFuel
  deriving DecidableEq

/-- The per-page item loop of `download_all` (lib.rs lines 90-109): stop on
the first item whose id has a sync record (`break 'outer`, returning `true`);
otherwise call the download endpoint and, on success, set the record.
`dl id` is the oracle for `self.download(id).is_ok()`. -/
def processItems (dl : String → Bool) : List Song → WalkState → WalkState × Bool
  | [], st => (st, false)
  | song :: rest, st =>
    if song.id ∈ st.db then (st, true)
    else
      processItems dl rest
        (if dl song.id then
          { st with db := song.id :: st.db, calls := st.calls ++ [song.id] }
        else
          { st with calls := st.calls ++ [song.id] })

/-- The pagination loop of `download_all` (lib.rs lines 86-116): fetch the
current page (a transport or parse failure is returned as `fatal`), process
its items, stop with `Ok` when a recorded item was hit or when there is no
`next` link, otherwise continue at the `next` link. -/
def walkLoop {ε : Type} (fetch : String → Except ε SongsResp) (dl : String → Bool) :
    Nat → String → WalkState → WalkState × WalkOutcome ε
  | 0, _, st => (st, WalkOutcome.outOfFuel)
  | fuel + 1, url, st =>
    match fetch url with
    | Except.error e => ({ st with fetched := st.fetched ++ [url] }, WalkOutcome.fatal e)
    | Except.ok page =>
      match processItems dl page.data { st with fetched := st.fetched ++ [url] } with
      | (st2, true) => (st2, WalkOutcome.ok)
      | (st2, false) =>
        match page.next with
        | some nxt => walkLoop fetch dl fuel nxt st2
        | none => (st2, WalkOutcome.ok)

/-- `Downloader::download_all` (lib.rs lines 79-118): start at the listing
endpoint with the persisted record set `db0`. -/
def download_all {ε : Type} (fetch : String → Except ε SongsResp) (dl : String → Bool)
    (base : String) (db0 : List String) (fuel : Nat) : WalkState × WalkOutcome ε :=
  walkLoop fetch dl fuel (base ++ "/app/songs?sort=uploaded") ⟨db0, [], []⟩

/-- Modelled from the spec (claim C2 wording): the virtual depth counter —
scanned over the components in order, a normal component increments, `.` is a
no-op, `..` decrements and rejects when the depth would go below zero.  A
root component is skipped here because the spec rejects it by its own
separate clause. -/
def specUnderflow : List Comp → Nat → Bool
  | [], _ => false
  | Comp.rootDir :: rest, d => specUnderflow rest d
  | Comp.curDir :: rest, d => specUnderflow rest d
  | Comp.parentDir :: _, 0 => true
  | Comp.parentDir :: rest, d + 1 => specUnderflow rest d
  | Comp.normal _ :: rest, d => specUnderflow rest (d + 1)

/-- Modelled from the spec (claim C2 wording): the set of inputs the spec
says the sanitizer rejects — a NUL byte, a root component (the spec also
lists drive prefixes, which do not occur on Unix), or a depth underflow. -/
def specRejects (s : String) : Bool :=
  decide (nulChar ∈ s.data)
    || decide (Comp.rootDir ∈ pathComponents s.data)
    || specUnderflow (pathComponents s.data) 0

/-- Concrete fixture: a catalog item with id `"a"`. -/
def songA : Song := ⟨"a", "u", "ta", "ra", 0⟩

/-- Concrete fixture: a catalog item with id `"b"`. -/
def songB : Song := ⟨"b", "u", "tb", "rb", 0⟩

/-- Concrete fixture: every URL fetches one final page listing `songA` then
`songB` (newest first), with no next link. -/
def onePageAB : String → Except Unit SongsResp := fun _ => Except.ok ⟨[songA, songB], none⟩

/-- Concrete fixture: every URL fetches one final page listing only `songA`. -/
def onePageA : String → Except Unit SongsResp := fun _ => Except.ok ⟨[songA], none⟩

/-- Concrete fixture: the download endpoint succeeds only for id `"a"`. -/
def dlOnlyA : String → Bool := fun id => id == "a"

/-- Concrete fixture: every download fails. -/
def dlNone : String → Bool := fun _ => false

/-- Concrete fixture: every page fetch fails with a transport error. -/
def fetchBoom : String → Except String SongsResp := fun _ => Except.error "boom"

/-! ### Lemmas about the path model -/

/-- Every piece produced by `splitP` is made of characters of the input and
contains no separator. -/
theorem splitP_chars {s p : List Char} (h : p ∈ splitP s) :
    (∀ c ∈ p, c ∈ s) ∧ '/' ∉ p := by
  induction s generalizing p with
  | nil =>
    simp only [splitP, List.mem_singleton] at h
    subst h
    simp
  | cons c rest ih =>
    by_cases hc : c = '/'
    · subst hc
      rw [splitP, if_pos rfl] at h
      rcases List.mem_cons.1 h with h | h
      · subst h; simp
      · obtain ⟨h1, h2⟩ := ih h
        exact ⟨fun x hx => List.mem_cons_of_mem _ (h1 x hx), h2⟩
    · rw [splitP, if_neg hc] at h
      cases hsp : splitP rest with
      | nil =>
        rw [hsp] at h
        simp only [List.mem_singleton] at h
        subst h
        constructor
        · intro x hx
          simp only [List.mem_singleton] at hx
          subst hx
          exact List.mem_cons_self _ _
        · intro hx
          simp only [List.mem_singleton] at hx
          exact hc hx.symm
      | cons p0 ps =>
        rw [hsp] at h
        rcases List.mem_cons.1 h with h | h
        · subst h
          have hp0 : p0 ∈ splitP rest := by rw [hsp]; exact List.mem_cons_self _ _
          obtain ⟨h1, h2⟩ := ih hp0
          constructor
          · intro x hx
            rcases List.mem_cons.1 hx with hx | hx
            · subst hx; exact List.mem_cons_self _ _
            · exact List.mem_cons_of_mem _ (h1 x hx)
          · intro hx
            rcases List.mem_cons.1 hx with hx | hx
            · exact hc hx.symm
            · exact h2 hx
        · have hp : p ∈ splitP rest := by rw [hsp]; exact List.mem_cons_of_mem _ h
          obtain ⟨h1, h2⟩ := ih hp
          exact ⟨fun x hx => List.mem_cons_of_mem _ (h1 x hx), h2⟩

/-- A `Normal` component of a path is one of the separator-delimited pieces
of the input, and is neither empty nor `.` nor `..`. -/
theorem pathComponents_normal {s n : List Char} (h : Comp.normal n ∈ pathComponents s) :
    n ∈ splitP s ∧ n ≠ [] ∧ n ≠ ['.'] ∧ n ≠ ['.', '.'] := by
  unfold pathComponents at h
  simp only [List.mem_append] at h
  rcases h with (h | h) | h
  · split at h <;> simp at h
  · split at h <;> simp at h
  · simp only [List.mem_map] at h
    obtain ⟨p, hp, hpe⟩ := h
    rw [List.mem_filter] at hp
    obtain ⟨hps, hpf⟩ := hp
    have hpf2 := of_decide_eq_true hpf
    by_cases hdd : p = ['.', '.']
    · rw [if_pos hdd] at hpe; cases hpe
    · rw [if_neg hdd] at hpe
      cases hpe
      exact ⟨hps, hpf2.1, hpf2.2, hdd⟩

/-- When `fileName` returns a name, that name is a non-degenerate
separator-free piece of the input path. -/
theorem fileName_some {p f : String} (h : fileName p = some f) :
    f.data ∈ splitP p.data ∧ f.data ≠ [] ∧ f.data ≠ ['.'] ∧ f.data ≠ ['.', '.'] := by
  unfold fileName at h
  cases hl : (pathComponents p.data).getLast? with
  | none => rw [hl] at h; cases h
  | some c =>
    rw [hl] at h
    cases c with
    | rootDir => cases h
    | curDir => cases h
    | parentDir => cases h
    | normal n =>
      simp only [Option.some.injEq] at h
      have hmem : Comp.normal n ∈ pathComponents p.data := List.mem_of_mem_getLast? hl
      have hprops := pathComponents_normal hmem
      rw [← h]
      exact hprops

/-- When `enclosed_name` accepts, it returns the input unchanged, the input
has no NUL, and the depth scan succeeded. -/
theorem enclosed_name_some {s t : String} (h : enclosed_name s = some t) :
    t = s ∧ nulChar ∉ s.data ∧ checkDepth (pathComponents s.data) 0 = true := by
  unfold enclosed_name at h
  by_cases h1 : nulChar ∈ s.data
  · rw [if_pos h1] at h; cases h
  · rw [if_neg h1] at h
    by_cases h2 : checkDepth (pathComponents s.data) 0 = true
    · rw [if_pos h2] at h
      cases h
      exact ⟨rfl, h1, h2⟩
    · rw [if_neg h2] at h; cases h

/-- A path chosen for an entry passed one of the two `enclosed_name` checks,
so it contains no NUL character. -/
theorem entryPath_some {e : Entry} {p : String} (h : entryPath e = some p) :
    nulChar ∉ p.data := by
  unfold entryPath at h
  split at h
  · obtain ⟨he, hn, _⟩ := enclosed_name_some h
    rw [he]; exact hn
  · obtain ⟨he, hn, _⟩ := enclosed_name_some h
    rw [he]; exact hn

/-- Every filename in the extractor's output either was in the accumulator or
arose as `fileName` of a sanitized entry path. -/
theorem extractEntries_written {copyOk : String → Bool} {es : List Entry}
    {acc : List String} {f : String}
    (h : f ∈ (extractEntries copyOk es acc).written) :
    f ∈ acc ∨ ∃ e p, entryPath e = some p ∧ fileName p = some f := by
  induction es generalizing acc with
  | nil =>
    simp only [extractEntries] at h
    exact Or.inl h
  | cons e rest ih =>
    by_cases hm : dirMarker e = true
    · rw [extractEntries, if_pos hm] at h
      exact ih h
    · rw [extractEntries, if_neg hm] at h
      cases hep : entryPath e with
      | none =>
        simp only [hep] at h
        exact ih h
      | some p =>
        simp only [hep] at h
        cases hfn : fileName p with
        | none =>
          simp only [hfn] at h
          exact Or.inl h
        | some f0 =>
          simp only [hfn] at h
          by_cases hc : copyOk f0 = true
          · rw [if_pos hc] at h
            rcases ih h with h1 | h2
            · rcases List.mem_append.1 h1 with ha | hb
              · exact Or.inl ha
              · simp only [List.mem_singleton] at hb
                subst hb
                exact Or.inr ⟨e, p, hep, hfn⟩
            · exact Or.inr h2
          · rw [if_neg hc] at h
            exact Or.inl h

/-! ### The claims -/

/-- C1: every filename the extraction loop writes is a single plain path
component — nonempty, not `.`, not `..`, with no separator and no NUL — so
`fs::File::create(dest.join(filename))` targets a file directly inside the
item's destination directory `dest/<song-id>/`, for every archive, however
adversarial the entry names. -/
theorem c1_writes_inside (copyOk : String → Bool) (entries : List Entry) (f : String)
    (h : f ∈ (extractEntries copyOk entries []).written) :
    f ≠ "" ∧ f ≠ "." ∧ f ≠ ".." ∧ '/' ∉ f.data ∧ nulChar ∉ f.data := by
  rcases extractEntries_written h with h0 | ⟨e, p, hep, hfn⟩
  · simp at h0
  · obtain ⟨hmem, hne, hnd, hndd⟩ := fileName_some hfn
    obtain ⟨hchars, hslash⟩ := splitP_chars hmem
    have hnul : nulChar ∉ p.data := entryPath_some hep
    refine ⟨?_, ?_, ?_, hslash, fun hc => hnul (hchars _ hc)⟩
    · intro he; subst he; exact hne rfl
    · intro he; subst he; exact hnd rfl
    · intro he; subst he; exact hndd rfl

/-- Witness for C1 at a concrete archive: the single entry `a.ksh` is
written and its filename is a safe plain component. -/
theorem c1_writes_inside_witness :
    ("a.ksh" ∈ (extractEntries (fun _ => true) [⟨"a.ksh", "a.ksh", false⟩] []).written)
    ∧ ("a.ksh" ≠ "" ∧ "a.ksh" ≠ "." ∧ "a.ksh" ≠ ".."
        ∧ '/' ∉ "a.ksh".data ∧ nulChar ∉ "a.ksh".data) :=
  ⟨by decide,
   c1_writes_inside (fun _ => true) [⟨"a.ksh", "a.ksh", false⟩] "a.ksh" (by decide)⟩

/-- The depth scan fails exactly when a root component occurs or the
spec's virtual depth counter would go below zero. -/
theorem checkDepth_false_iff (cs : List Comp) (d : Nat) :
    checkDepth cs d = false ↔ (Comp.rootDir ∈ cs ∨ specUnderflow cs d = true) := by
  induction cs generalizing d with
  | nil => simp [checkDepth, specUnderflow]
  | cons c rest ih =>
    cases c with
    | rootDir => simp [checkDepth, specUnderflow]
    | curDir =>
      simp only [checkDepth, specUnderflow, List.mem_cons]
      rw [ih]
      simp
    | parentDir =>
      cases d with
      | zero => simp [checkDepth, specUnderflow]
      | succ d =>
        simp only [checkDepth, specUnderflow, List.mem_cons]
        rw [ih]
        simp
    | normal nm =>
      simp only [checkDepth, specUnderflow, List.mem_cons]
      rw [ih]
      simp

/-- `enclosed_name` rejects exactly on a NUL character or a failed depth
scan. -/
theorem enclosed_name_eq_none_iff (s : String) :
    enclosed_name s = none ↔
      (nulChar ∈ s.data ∨ checkDepth (pathComponents s.data) 0 = false) := by
  rw [enclosed_name]
  by_cases h1 : nulChar ∈ s.data
  · simp [h1]
  · by_cases h2 : checkDepth (pathComponents s.data) 0 = true
    · simp [h1, h2]
    · rw [Bool.not_eq_true] at h2
      simp [h1, h2]

/-- C2: the sanitizer rejects exactly the inputs the spec lists — a NUL
byte, a root component (drive prefixes do not occur on Unix), or a depth
underflow under the spec's component scan — every other input is accepted
unchanged, and the extractor writes an accepted entry under the final path
component returned by `fileName`. -/
theorem c2_sanitizer :
    (∀ s : String, enclosed_name s = none ↔ specRejects s = true)
    ∧ (∀ s : String, specRejects s = false → enclosed_name s = some s)
    ∧ (∀ (copyOk : String → Bool) (e : Entry) (rest : List Entry) (acc : List String)
        (p f : String), dirMarker e = false → entryPath e = some p →
        fileName p = some f → copyOk f = true →
        extractEntries copyOk (e :: rest) acc = extractEntries copyOk rest (acc ++ [f])) := by
  refine ⟨fun s => ?_, fun s h => ?_, fun copyOk e rest acc p f h1 h2 h3 h4 => ?_⟩
  · rw [enclosed_name_eq_none_iff, specRejects]
    simp only [Bool.or_eq_true, decide_eq_true_eq]
    rw [checkDepth_false_iff]
    tauto
  · rw [specRejects] at h
    simp only [Bool.or_eq_false_iff, decide_eq_false_iff_not] at h
    obtain ⟨⟨h1, h2⟩, h3⟩ := h
    rw [enclosed_name, if_neg h1, if_pos ?_]
    by_cases hcd : checkDepth (pathComponents s.data) 0 = true
    · exact hcd
    · rw [Bool.not_eq_true] at hcd
      rcases (checkDepth_false_iff (pathComponents s.data) 0).1 hcd with hr | hu
      · exact absurd hr h2
      · rw [h3] at hu; cases hu
  · rw [extractEntries, if_neg (by rw [h1]; exact Bool.false_ne_true)]
    simp only [h2, h3, if_pos h4]

/-- Witness for C2: `a/b` is accepted unchanged and the extractor writes it
under its final component `b`; the rejection characterization is evaluated at
`../x`. -/
theorem c2_sanitizer_witness :
    (enclosed_name "../x" = none ↔ specRejects "../x" = true)
    ∧ enclosed_name "a/b" = some "a/b"
    ∧ extractEntries (fun _ => true) [⟨"a/b", "a/b", false⟩] []
        = extractEntries (fun _ => true) [] ([] ++ ["b"]) :=
  ⟨c2_sanitizer.1 "../x",
   c2_sanitizer.2.1 "a/b" (by decide),
   c2_sanitizer.2.2 (fun _ => true) ⟨"a/b", "a/b", false⟩ [] [] "a/b" "b"
     (by decide) (by decide) (by decide) rfl⟩

/-- C10: the name `.` (likewise `a/..`) is accepted by the sanitizer but has
no final normal component, so `filepath.file_name().unwrap()` at lib.rs line
162 panics: the extraction of such an entry neither writes a file nor skips
the entry. -/
theorem c10_panic :
    enclosed_name "." = some "." ∧ fileName "." = none
    ∧ enclosed_name "a/.." = some "a/.." ∧ fileName "a/.." = none
    ∧ dirMarker ⟨".", ".", false⟩ = false
    ∧ extractEntries (fun _ => true) [⟨".", ".", false⟩, ⟨"rest.ksh", "rest.ksh", false⟩] []
        = ⟨[], ExtractOutcome.panicked⟩ := by
  decide

/-- C5 counterexample: a single failing copy is not a per-entry failure.
With an archive of two entries where only the first entry's copy fails, the
extraction aborts with an I/O error and the second entry is never written,
although extracting the second entry alone succeeds. -/
theorem c5_copy_abort_counterexample :
    extractEntries (fun f => !(f == "bad.ogg"))
        [⟨"bad.ogg", "bad.ogg", false⟩, ⟨"good.ksh", "good.ksh", false⟩] []
      = ⟨[], ExtractOutcome.ioError⟩
    ∧ extractEntries (fun f => !(f == "bad.ogg"))
        [⟨"good.ksh", "good.ksh", false⟩] []
      = ⟨["good.ksh"], ExtractOutcome.ok⟩ := by
  decide

/-- C5 amended: a failure to decode or sanitize an entry name is per-entry —
the entry is skipped and extraction continues — but an I/O failure while
creating or copying an entry aborts the whole extraction via the `?`
operator (lib.rs lines 163-164). -/
theorem c5_amended :
    (∀ (copyOk : String → Bool) (e : Entry) (rest : List Entry) (acc : List String),
        dirMarker e = false → entryPath e = none →
        extractEntries copyOk (e :: rest) acc = extractEntries copyOk rest acc)
    ∧ (∀ (copyOk : String → Bool) (e : Entry) (rest : List Entry) (acc : List String)
        (p f : String), dirMarker e = false → entryPath e = some p →
        fileName p = some f → copyOk f = false →
        extractEntries copyOk (e :: rest) acc = ⟨acc, ExtractOutcome.ioError⟩) := by
  constructor
  · intro copyOk e rest acc h1 h2
    rw [extractEntries, if_neg (by rw [h1]; exact Bool.false_ne_true)]
    simp only [h2]
  · intro copyOk e rest acc p f h1 h2 h3 h4
    rw [extractEntries, if_neg (by rw [h1]; exact Bool.false_ne_true)]
    simp only [h2, h3, h4, if_neg]
    simp

/-- Witness for C5 amended: a rejected name (`..`) is skipped and extraction
continues; a failing copy aborts with an I/O error. -/
theorem c5_amended_witness :
    extractEntries (fun _ => false) [⟨"..", "..", false⟩] []
      = extractEntries (fun _ => false) [] []
    ∧ extractEntries (fun _ => false) [⟨"x.ogg", "x.ogg", false⟩] []
      = ⟨[], ExtractOutcome.ioError⟩ :=
  ⟨c5_amended.1 (fun _ => false) ⟨"..", "..", false⟩ [] [] (by decide) (by decide),
   c5_amended.2 (fun _ => false) ⟨"x.ogg", "x.ogg", false⟩ [] [] "x.ogg" "x.ogg"
     (by decide) (by decide) (by decide) rfl⟩

/-- C6: the name decoder uses the decoded text when the charset decoding
reported no errors, falls back to the container's own sanitized name
(`file.enclosed_name()`) when it did, and when the chosen alternative yields
no usable path the entry is skipped with a warning and extraction continues
with the remaining entries. -/
theorem c6_decoder (e : Entry) :
    (e.hadErrors = false → entryPath e = enclosed_name e.decoded)
    ∧ (e.hadErrors = true → entryPath e = enclosed_name e.name)
    ∧ (∀ (copyOk : String → Bool) (rest : List Entry) (acc : List String),
        dirMarker e = false → entryPath e = none →
        extractEntries copyOk (e :: rest) acc = extractEntries copyOk rest acc) := by
  refine ⟨fun h => ?_, fun h => ?_, fun copyOk rest acc h1 h2 => ?_⟩
  · rw [entryPath, h, if_neg Bool.false_ne_true]
  · rw [entryPath, h, if_pos rfl]
  · rw [extractEntries, if_neg (by rw [h1]; exact Bool.false_ne_true)]
    simp only [h2]

/-- Witness for C6: both branches of the decoder choice evaluated at
concrete entries, and a skipped entry (`..` decodes cleanly but is rejected
by the sanitizer) leaving extraction to continue. -/
theorem c6_decoder_witness :
    entryPath ⟨"n", "d", false⟩ = enclosed_name "d"
    ∧ entryPath ⟨"n", "d", true⟩ = enclosed_name "n"
    ∧ extractEntries (fun _ => true) [⟨"..", "..", false⟩] []
        = extractEntries (fun _ => true) [] [] :=
  ⟨(c6_decoder ⟨"n", "d", false⟩).1 rfl,
   (c6_decoder ⟨"n", "d", true⟩).2.1 rfl,
   (c6_decoder ⟨"..", "..", false⟩).2.2 (fun _ => true) [] [] (by decide) (by decide)⟩

/-! ### Lemmas about the catalog walk -/

/-- Processing a concatenation of items: when the first part finishes
without hitting a recorded item, processing continues with the second part
from the reached state. -/
theorem processItems_append (dl : String → Bool) (xs ys : List Song) (st st1 : WalkState)
    (h : processItems dl xs st = (st1, false)) :
    processItems dl (xs ++ ys) st = processItems dl ys st1 := by
  induction xs generalizing st with
  | nil =>
    rw [processItems] at h
    cases h
    rfl
  | cons s rest ih =>
    by_cases hm : s.id ∈ st.db
    · rw [processItems, if_pos hm] at h
      cases h
    · rw [processItems, if_neg hm] at h
      rw [List.cons_append, processItems, if_neg hm]
      exact ih _ h

/-- A recorded item encountered at the head stops processing at once. -/
theorem processItems_stop (dl : String → Bool) (s : Song) (post : List Song)
    (st : WalkState) (hs : s.id ∈ st.db) :
    processItems dl (s :: post) st = (st, true) := by
  rw [processItems, if_pos hs]

/-- The item loop never touches the fetched-pages trace. -/
theorem processItems_fetched (dl : String → Bool) (l : List Song) (st : WalkState) :
    ((processItems dl l st).1).fetched = st.fetched := by
  induction l generalizing st with
  | nil => rfl
  | cons s rest ih =>
    by_cases hm : s.id ∈ st.db
    · rw [processItems, if_pos hm]
    · rw [processItems, if_neg hm]
      by_cases hdl : dl s.id = true
      · rw [if_pos hdl, ih]
      · rw [if_neg hdl, ih]

/-- The download-call trace only grows during the item loop. -/
theorem processItems_calls_mono (dl : String → Bool) (l : List Song) (st : WalkState) :
    ∃ t, ((processItems dl l st).1).calls = st.calls ++ t := by
  induction l generalizing st with
  | nil => exact ⟨[], by simp [processItems]⟩
  | cons s rest ih =>
    by_cases hm : s.id ∈ st.db
    · exact ⟨[], by rw [processItems, if_pos hm]; simp⟩
    · by_cases hdl : dl s.id = true
      · obtain ⟨t, ht⟩ :=
          ih { st with db := s.id :: st.db, calls := st.calls ++ [s.id] }
        refine ⟨s.id :: t, ?_⟩
        rw [processItems, if_neg hm, if_pos hdl, ht]
        simp
      · obtain ⟨t, ht⟩ := ih { st with calls := st.calls ++ [s.id] }
        refine ⟨s.id :: t, ?_⟩
        rw [processItems, if_neg hm, if_neg hdl, ht]
        simp

/-- An id whose download fails has a record after the item loop exactly when
it had one before. -/
theorem processItems_db_of_fail (dl : String → Bool) (l : List Song) (st : WalkState)
    (id0 : String) (h : dl id0 = false) :
    (id0 ∈ ((processItems dl l st).1).db ↔ id0 ∈ st.db) := by
  induction l generalizing st with
  | nil => rw [processItems]
  | cons s rest ih =>
    by_cases hm : s.id ∈ st.db
    · rw [processItems, if_pos hm]
    · rw [processItems, if_neg hm]
      by_cases hdl : dl s.id = true
      · have hne : id0 ≠ s.id := by
          intro he
          rw [← he, h] at hdl
          cases hdl
        rw [if_pos hdl, ih]
        simp only [List.mem_cons]
        exact ⟨fun hx => hx.resolve_left hne, Or.inr⟩
      · rw [if_neg hdl, ih]

/-- Lifting `processItems_db_of_fail` through the pagination loop. -/
theorem walkLoop_db_of_fail {ε : Type} (fetch : String → Except ε SongsResp)
    (dl : String → Bool) (fuel : Nat) (url : String) (st : WalkState) (id0 : String)
    (h : dl id0 = false) :
    (id0 ∈ ((walkLoop fetch dl fuel url st).1).db ↔ id0 ∈ st.db) := by
  induction fuel generalizing url st with
  | zero => rw [walkLoop]
  | succ fuel ih =>
    rw [walkLoop]
    cases hf : fetch url with
    | error e => simp
    | ok page =>
      have hdb := processItems_db_of_fail dl page.data
        { st with fetched := st.fetched ++ [url] } id0 h
      rcases hp : processItems dl page.data { st with fetched := st.fetched ++ [url] }
        with ⟨st2, stop⟩
      rw [hp] at hdb
      cases stop with
      | true =>
        simp only [hp]
        simpa using hdb
      | false =>
        cases hn : page.next with
        | some nxt =>
          simp only [hp, hn]
          rw [ih nxt st2]
          simpa using hdb
        | none =>
          simp only [hp, hn]
          simpa using hdb

/-! ### Walker claims -/

/-- C3: once an item with an existing sync record is encountered — the items
before it on the page were processed without hitting a record — the walk
returns at once with exactly the state reached before that item: the
download endpoint is called neither for it nor for any later item, and no
further page is fetched (the final fetched trace is the pages fetched so far
plus the current page only). -/
theorem c3_stop_rule {ε : Type} (fetch : String → Except ε SongsResp) (dl : String → Bool)
    (fuel : Nat) (url : String) (page : SongsResp) (pre post : List Song) (s : Song)
    (st st1 : WalkState)
    (hf : fetch url = Except.ok page)
    (hd : page.data = pre ++ s :: post)
    (hpre : processItems dl pre { st with fetched := st.fetched ++ [url] } = (st1, false))
    (hs : s.id ∈ st1.db) :
    walkLoop fetch dl (fuel + 1) url st = (st1, WalkOutcome.ok)
    ∧ st1.fetched = st.fetched ++ [url] := by
  have happ := processItems_append dl pre (s :: post)
    { st with fetched := st.fetched ++ [url] } st1 hpre
  have hstop := processItems_stop dl s post st1 hs
  constructor
  · rw [walkLoop]
    simp only [hf, ← hd] at happ ⊢
    rw [happ, hstop]
  · have := processItems_fetched dl pre { st with fetched := st.fetched ++ [url] }
    rw [hpre] at this
    exact this

/-- Witness for C3 at a concrete catalog: the only item already has a
record, so the walk stops with no download call and one fetched page. -/
theorem c3_stop_rule_witness :
    walkLoop onePageA dlNone (3 + 1) "s" ⟨["a"], [], []⟩
      = (⟨["a"], [], ["s"]⟩, WalkOutcome.ok)
    ∧ (⟨["a"], [], ["s"]⟩ : WalkState).fetched
      = (⟨["a"], [], []⟩ : WalkState).fetched ++ ["s"] :=
  c3_stop_rule onePageA dlNone 3 "s" ⟨[songA], none⟩ [] [] songA ⟨["a"], [], []⟩
    ⟨["a"], [], ["s"]⟩ rfl rfl (by decide) (by decide)

/-- C4 counterexample: with a catalog `[a, b]` where `a` downloads
successfully and `b` fails, the first run calls both and records only `a`;
the second run against the unchanged catalog stops at `a`'s record and
performs no call at all — the failed item `b` is NOT attempted again,
refuting the claim's final conjunct. -/
theorem c4_retry_counterexample :
    dlOnlyA "b" = false
    ∧ walkLoop onePageAB dlOnlyA 2 "s" ⟨[], [], []⟩
        = (⟨["a"], ["a", "b"], ["s"]⟩, WalkOutcome.ok)
    ∧ "b" ∉ (⟨["a"], ["a", "b"], ["s"]⟩ : WalkState).db
    ∧ walkLoop onePageAB dlOnlyA 2 "s" ⟨["a"], [], []⟩
        = (⟨["a"], [], ["s"]⟩, WalkOutcome.ok)
    ∧ "b" ∉ (⟨["a"], [], ["s"]⟩ : WalkState).calls := by
  decide

/-- C4 amended: an item whose download fails gets no sync record and the
walk moves on to the next item without stopping; a subsequent run attempts
its download again provided it is reached without first encountering an item
that already has a sync record (otherwise the stopping rule ends the second
walk before the failed item). -/
theorem c4_amended (dl dl2 : String → Bool) (s : Song) (rest pre post : List Song)
    (st st2 st3 : WalkState)
    (h1 : s.id ∉ st.db) (h2 : dl s.id = false)
    (h3 : processItems dl2 pre st2 = (st3, false)) (h4 : s.id ∉ st3.db) :
    processItems dl (s :: rest) st
      = processItems dl rest { st with calls := st.calls ++ [s.id] }
    ∧ ∃ t, ((processItems dl2 (pre ++ s :: post) st2).1).calls
        = st3.calls ++ s.id :: t := by
  constructor
  · rw [processItems, if_neg h1, if_neg (by rw [h2]; exact Bool.false_ne_true)]
  · rw [processItems_append dl2 pre (s :: post) st2 st3 h3]
    rw [processItems, if_neg h4]
    by_cases hdl : dl2 s.id = true
    · rw [if_pos hdl]
      obtain ⟨t, ht⟩ := processItems_calls_mono dl2 post
        { st3 with db := s.id :: st3.db, calls := st3.calls ++ [s.id] }
      refine ⟨t, ?_⟩
      rw [ht]
      simp
    · rw [if_neg hdl]
      obtain ⟨t, ht⟩ := processItems_calls_mono dl2 post
        { st3 with calls := st3.calls ++ [s.id] }
      refine ⟨t, ?_⟩
      rw [ht]
      simp

/-- Witness for C4 amended at a concrete failing item. -/
theorem c4_amended_witness :
    processItems dlNone [songB] ⟨[], [], []⟩
      = processItems dlNone [] ⟨[], ["b"], []⟩
    ∧ ∃ t, ((processItems dlNone [songB] ⟨[], [], []⟩).1).calls = "b" :: t :=
  c4_amended dlNone dlNone songB [] [] [] ⟨[], [], []⟩ ⟨[], [], []⟩ ⟨[], [], []⟩
    (by decide) (by decide) (by decide) (by decide)

/-- C7: a transport or parse failure while fetching a page ends the whole
walk at once with that error surfaced to the caller; when the page fetch
succeeds and pagination ends, the walk returns `Ok` whatever the per-item
download outcomes were (the failed calls are visible in the reached state's
call trace, yet the outcome is `ok`). -/
theorem c7_fatal_vs_items {ε : Type} (fetch : String → Except ε SongsResp)
    (dl : String → Bool) (fuel : Nat) (url : String) (st : WalkState) :
    (∀ e, fetch url = Except.error e →
        walkLoop fetch dl (fuel + 1) url st
          = ({ st with fetched := st.fetched ++ [url] }, WalkOutcome.fatal e))
    ∧ (∀ (page : SongsResp) (st2 : WalkState), fetch url = Except.ok page →
        page.next = none →
        processItems dl page.data { st with fetched := st.fetched ++ [url] }
          = (st2, false) →
        walkLoop fetch dl (fuel + 1) url st = (st2, WalkOutcome.ok)) := by
  constructor
  · intro e he
    rw [walkLoop]
    simp only [he]
  · intro page st2 hf hn hp
    rw [walkLoop]
    simp only [hf, hp, hn]

/-- Witness for C7: a failing fetch surfaces `fatal "boom"`; a successful
fetch of a final page returns `ok` although both item downloads failed. -/
theorem c7_fatal_vs_items_witness :
    walkLoop fetchBoom dlNone (0 + 1) "s" ⟨[], [], []⟩
      = (⟨[], [], ["s"]⟩, WalkOutcome.fatal "boom")
    ∧ walkLoop onePageAB dlNone (0 + 1) "s" ⟨[], [], []⟩
      = (⟨[], ["a", "b"], ["s"]⟩, WalkOutcome.ok) :=
  ⟨(c7_fatal_vs_items fetchBoom dlNone 0 "s" ⟨[], [], []⟩).1 "boom" rfl,
   (c7_fatal_vs_items onePageAB dlNone 0 "s" ⟨[], [], []⟩).2 ⟨[songA, songB], none⟩
     ⟨[], ["a", "b"], ["s"]⟩ rfl rfl (by decide)⟩

/-- C8: an id whose download fails has a sync record after the whole walk
exactly when it had one before — the record for an id is written only upon
`download(id)` returning `Ok`, and a failing download leaves the store
unchanged for that id. -/
theorem c8_record_only_on_success {ε : Type} (fetch : String → Except ε SongsResp)
    (dl : String → Bool) (fuel : Nat) (url : String) (st : WalkState) (id0 : String)
    (h : dl id0 = false) :
    (id0 ∈ ((walkLoop fetch dl fuel url st).1).db ↔ id0 ∈ st.db) :=
  walkLoop_db_of_fail fetch dl fuel url st id0 h

/-- Witness for C8: after a concrete walk where `b`'s download failed, `b`
has a record exactly when it had one initially (it has none). -/
theorem c8_record_only_on_success_witness :
    ("b" ∈ ((walkLoop onePageAB dlOnlyA 2 "s" ⟨[], [], []⟩).1).db
      ↔ "b" ∈ (⟨[], [], []⟩ : WalkState).db) :=
  c8_record_only_on_success onePageAB dlOnlyA 2 "s" ⟨[], [], []⟩ "b" (by decide)

/-- C9 counterexample: with a catalog of a single item `a` whose download
always fails, the first run calls `a`, records nothing, and returns `Ok`; the
second run against the unchanged catalog starts from the unchanged store and
again performs one download call — not zero — refuting the claim. -/
theorem c9_idempotence_counterexample :
    walkLoop onePageA dlNone 2 "s" ⟨[], [], []⟩
      = (⟨[], ["a"], ["s"]⟩, WalkOutcome.ok)
    ∧ ((walkLoop onePageA dlNone 2 "s"
          ⟨(walkLoop onePageA dlNone 2 "s" ⟨[], [], []⟩).1.db, [], []⟩).1).calls
        = ["a"]
    ∧ (["a"] : List String) ≠ [] := by
  decide

/-- C9 amended: a second run performs zero download calls provided the first
item of the first page has a sync record when the second run starts (which
is what an unchanged catalog yields when that item's download succeeded in
the first run); the run also ends successfully at once. -/
theorem c9_amended {ε : Type} (fetch : String → Except ε SongsResp) (dl : String → Bool)
    (fuel : Nat) (url : String) (page : SongsResp) (s : Song) (rest : List Song)
    (st : WalkState)
    (hf : fetch url = Except.ok page) (hd : page.data = s :: rest) (hs : s.id ∈ st.db) :
    ((walkLoop fetch dl (fuel + 1) url st).1).calls = st.calls
    ∧ (walkLoop fetch dl (fuel + 1) url st).2 = WalkOutcome.ok := by
  have hstop : processItems dl page.data { st with fetched := st.fetched ++ [url] }
      = ({ st with fetched := st.fetched ++ [url] }, true) := by
    rw [hd]
    exact processItems_stop dl s rest _ hs
  rw [walkLoop]
  simp [hf, hstop]

/-- Witness for C9 amended: the single item is recorded, so the second walk
makes no download call and returns `ok`. -/
theorem c9_amended_witness :
    ((walkLoop onePageA dlNone (1 + 1) "s" ⟨["a"], [], []⟩).1).calls
      = (⟨["a"], [], []⟩ : WalkState).calls
    ∧ (walkLoop onePageA dlNone (1 + 1) "s" ⟨["a"], [], []⟩).2 = WalkOutcome.ok :=
  c9_amended onePageA dlNone 1 "s" ⟨[songA], none⟩ songA [] ⟨["a"], [], []⟩
    rfl rfl (by decide)

end Nautica
